import Mathlib

/-!
Verification of the nnUNet/MedNeXt weight-reconciliation and architecture-preset
components, embedded shallowly from
`src/nnunetv2/run/load_pretrained_weights.py` and
`src/nnunetv2/training/nnUNetTrainer/variants/mednext/nnUNetTrainer_MedNeXt.py`.

State dictionaries (Python `dict[str, torch.Tensor]`) are modelled as
association lists with Python-dict semantics: lookup returns the first
occurrence, assignment updates in place if present and appends otherwise.
Tensors are modelled as a shape together with abstract integer contents.
-/

/-- A parameter tensor: a shape (list of dimension sizes) plus abstract flat
numeric contents. -/
structure Tensor where
  shape : List Nat
  data : List Int
deriving DecidableEq, Repr

/-- Python dict lookup on an association list: first matching key wins. -/
def smFind : List (String × Tensor) → String → Option Tensor
  | [], _ => none
  | (k, v) :: rest, key => if k = key then some v else smFind rest key

/-- Python `key in dict`. -/
def smMem (m : List (String × Tensor)) (k : String) : Bool :=
  (smFind m k).isSome

/-- Python dict assignment `d[key] = v`: replace the first occurrence in
place, else append. -/
def smSet : List (String × Tensor) → String → Tensor → List (String × Tensor)
  | [], key, v => [(key, v)]
  | (k, w) :: rest, key, v =>
      if k = key then (key, v) :: rest else (k, w) :: smSet rest key v

/-- Tests whether the first character list starts with the second. -/
def charsStart : List Char → List Char → Bool
  | _, [] => true
  | [], _ :: _ => false
  | a :: as, b :: bs => a = b && charsStart as bs

/-- Tests whether `needle` occurs contiguously inside the second list. -/
def charsHaveSub (needle : List Char) : List Char → Bool
  | [] => needle.isEmpty
  | a :: rest => charsStart (a :: rest) needle || charsHaveSub needle rest

/-- Python substring test `needle in hay`. -/
def strContains (hay needle : String) : Bool :=
  charsHaveSub needle.toList hay.toList

/-- The `skip_strings_in_pretrained` list of `load_pretrained_weights`. -/
def skip_strings_in_pretrained : List String := [".seg_layers."]

/-- Python `all([i not in key for i in skip_strings_in_pretrained])`. -/
def notSkipped (key : String) : Bool :=
  skip_strings_in_pretrained.all (fun i => !(strContains key i))

/-- Error outcomes of the two loaders: the strict loader's two `assert`
statements (spec name `IncompatibleCheckpointError`), the UpKern loader's
two channel `assert` statements (spec name `IncompatibleChannelsError`),
its `TypeError` for unsupported ranks (spec name `UnsupportedRankError`),
and Python's `ValueError` when a shape with fewer than two dimensions is
unpacked as `inc, outc, *spatial`. -/
inductive LoadError where
  | missingKey (k : String)
  | shapeMismatch (k : String)
  | channelMismatch (k : String)
  | unsupportedRank (k : String)
  | unpackError (k : String)
deriving DecidableEq, Repr

/-- The validation loop of `load_pretrained_weights` (lines 40-48): for every
key of `model_dict` that contains no skip string, assert that the key is in
`pretrained_dict` and that the shapes agree. -/
def validateKeys (pretrained_dict : List (String × Tensor)) :
    List (String × Tensor) → Except LoadError Unit
  | [] => .ok ()
  | (key, tv) :: rest =>
      if notSkipped key then
        match smFind pretrained_dict key with
        | none => .error (.missingKey key)
        | some pv =>
            if tv.shape = pv.shape then validateKeys pretrained_dict rest
            else .error (.shapeMismatch key)
      else validateKeys pretrained_dict rest

/-- The overlay dict comprehension of `load_pretrained_weights` (lines 59-60):
keep the source entries whose key is in `model_dict` and is not skipped. -/
def filterPretrained (pretrained_dict model_dict : List (String × Tensor)) :
    List (String × Tensor) :=
  pretrained_dict.filter (fun kv => smMem model_dict kv.1 && notSkipped kv.1)

/-- Python `model_dict.update(overlay)`. -/
def smUpdate (m overlay : List (String × Tensor)) : List (String × Tensor) :=
  overlay.foldl (fun acc kv => smSet acc kv.1 kv.2) m

/-- The dict transformation performed by `load_pretrained_weights`: validate
every non-skipped key of `model_dict` against `pretrained_dict`, then merge
the filtered source entries onto `model_dict`. Returns the optional error
together with the state of `model_dict` when the call ends: on an assertion
failure no mutation has happened yet, so the original mapping is returned. -/
def load_pretrained_weights (model_dict pretrained_dict : List (String × Tensor)) :
    Option LoadError × List (String × Tensor) :=
  match validateKeys pretrained_dict model_dict with
  | .error e => (some e, model_dict)
  | .ok () =>
      (none, smUpdate model_dict (filterPretrained pretrained_dict model_dict))

/-- Key normalization of `load_pretrained_weights_upkern` (lines 82-90):
if the key starts with `module.` (inserted by DDP), remove the first seven
characters, i.e. Python `key[7:]`. -/
def dropModuleTag (k : String) : String :=
  if charsStart k.toList "module.".toList then String.mk (k.toList.drop 7) else k

/-- Rebuilding `new_state_dict` from the source entries with normalized keys
(lines 82-90); repeated assignment keeps Python-dict overwrite semantics. -/
def normalizeSource (pretrained_dict : List (String × Tensor)) :
    List (String × Tensor) :=
  pretrained_dict.foldl (fun acc kv => smSet acc (dropModuleTag kv.1) kv.2) []

/-- The marker test of line 97: `'bias' in k or 'norm' in k or 'dummy' in k`. -/
def isMarkerKey (k : String) : Bool :=
  strContains k "bias" || strContains k "norm" || strContains k "dummy"

/-- Python unpacking `inc, outc, *spatial_dims = shape`; fails (ValueError)
when the shape has fewer than two dimensions. -/
def unpackShape : List Nat → Option (Nat × Nat × List Nat)
  | inc :: outc :: spatial => some (inc, outc, spatial)
  | _ => none

/-- Interpolation modes used by the UpKern loader. -/
inductive InterpMode where
  | trilinear
  | bilinear
deriving DecidableEq, Repr

/-- Model of the external `torch.nn.functional.interpolate` (library code,
out of scope per the spec): keeps the two leading channel dimensions and
replaces the spatial dimensions by the requested size; numeric contents are
synthesized and abstracted here as zeros of the right length. -/
def interpolate (t : Tensor) (size : List Nat) (_mode : InterpMode) : Tensor :=
  match t.shape with
  | a :: b :: _ => { shape := a :: b :: size, data := List.replicate (a * b * size.prod) 0 }
  | s => { shape := s, data := t.data }

/-- Per-key diagnostics printed or warned by `load_pretrained_weights_upkern`:
a marker key loaded unchanged (line 98), a key copied verbatim (line 110), a
key interpolated with the given mode (lines 117/123), or the warning of line
127 naming the key and recording its membership in the current model and in
the pretrained model. -/
inductive KeyDiag where
  | markerCopied (k : String)
  | copied (k : String)
  | interpolated (k : String) (mode : InterpMode)
  | warnedNotShared (k : String) (inModel : Bool) (inPretrained : Bool)
deriving DecidableEq, Repr

/-- One iteration of the key loop of `load_pretrained_weights_upkern`
(lines 93-127) for target key `k` with target tensor `tv`. Returns either an
error (a failed `assert`, the `TypeError`, or an unpack `ValueError`) or the
optional new tensor assigned to `model_dict[k]` (`none` means the entry is
left untouched) together with the diagnostic for this key. -/
def upkernStep (pretrained_dict : List (String × Tensor)) (k : String)
    (tv : Tensor) : Except LoadError (Option Tensor × KeyDiag) :=
  match smFind pretrained_dict k with
  | some pv =>
      if isMarkerKey k then .ok (some pv, .markerCopied k)
      else
        match unpackShape tv.shape with
        | none => .error (.unpackError k)
        | some (inc1, outc1, spatial_dims1) =>
            match unpackShape pv.shape with
            | none => .error (.unpackError k)
            | some (inc2, outc2, spatial_dims2) =>
                if inc1 = inc2 then
                  if outc1 = outc2 then
                    if spatial_dims1 = spatial_dims2 then .ok (some pv, .copied k)
                    else if spatial_dims1.length = 3 then
                      .ok (some (interpolate pv spatial_dims1 .trilinear),
                           .interpolated k .trilinear)
                    else if spatial_dims1.length = 2 then
                      .ok (some (interpolate pv spatial_dims1 .bilinear),
                           .interpolated k .bilinear)
                    else .error (.unsupportedRank k)
                  else .error (.channelMismatch k)
                else .error (.channelMismatch k)
  | none => .ok (none, .warnedNotShared k true false)

/-- The key loop of `load_pretrained_weights_upkern`, iterating over the
target keys and mutating the accumulator dict; an error aborts the loop with
the partially updated mapping (the resampling path mutates incrementally). -/
def upkernGo (pretrained_dict : List (String × Tensor)) :
    List (String × Tensor) → List (String × Tensor) → List KeyDiag →
    Option LoadError × List (String × Tensor) × List KeyDiag
  | [], acc, diags => (none, acc, diags.reverse)
  | (k, tv) :: rest, acc, diags =>
      match upkernStep pretrained_dict k tv with
      | .error e => (some e, acc, diags.reverse)
      | .ok (none, d) => upkernGo pretrained_dict rest acc (d :: diags)
      | .ok (some nv, d) => upkernGo pretrained_dict rest (smSet acc k nv) (d :: diags)

/-- The dict transformation performed by `load_pretrained_weights_upkern`
(lines 73-130): normalize the source keys, then walk the target keys copying,
interpolating, or warning. Returns the optional error, the final state of
`model_dict`, and the emitted per-key diagnostics. -/
def load_pretrained_weights_upkern (model_dict pretrained_dict : List (String × Tensor)) :
    Option LoadError × List (String × Tensor) × List KeyDiag :=
  upkernGo (normalizeSource pretrained_dict) model_dict model_dict []

/-- Modelled from the spec ("output equals straight-copy output"): the
straight verbatim copy that writes, for every shared key, the source value
onto the target mapping and leaves every other key untouched. Comparison
behavior for the idempotence claim. -/
def straightCopyGo (pretrained_dict : List (String × Tensor)) :
    List (String × Tensor) → List (String × Tensor) → List (String × Tensor)
  | [], acc => acc
  | (k, _) :: rest, acc =>
      match smFind pretrained_dict k with
      | some pv => straightCopyGo pretrained_dict rest (smSet acc k pv)
      | none => straightCopyGo pretrained_dict rest acc

/-- Straight verbatim copy of the shared source values onto the target
mapping (spec's comparison point for the idempotence property). -/
def straightCopy (model_dict pretrained_dict : List (String × Tensor)) :
    List (String × Tensor) :=
  straightCopyGo pretrained_dict model_dict model_dict

/-- The `exp_r` argument of `MedNeXt`: either one uniform ratio or one ratio
per stage. -/
inductive ExpansionRatio where
  | scalar (n : Nat)
  | perStage (l : List Nat)
deriving DecidableEq, Repr

/-- The keyword arguments with which the MedNeXt trainers construct the
`MedNeXt` network (an external class; only the argument record is in scope). -/
structure MedNeXtConfig where
  in_channels : Nat
  n_channels : Nat
  n_classes : Nat
  exp_r : ExpansionRatio
  kernel_size : Nat
  deep_supervision : Bool
  do_res : Bool
  do_res_up_down : Bool
  block_counts : List Nat
  checkpoint_style : Option String
  grn : Bool
deriving DecidableEq, Repr

/-- The static `build_network_architecture` of `nnUNetTrainer_MedNeXt_M_kernel3`
(file `nnUNetTrainer_MedNeXt.py`, lines 128-153). -/
def nnUNetTrainer_MedNeXt_M_kernel3.build_network_architecture
    (num_input_channels num_output_channels : Nat)
    (enable_deep_supervision : Bool) : MedNeXtConfig :=
  { in_channels := num_input_channels
    n_channels := 32
    n_classes := num_output_channels
    exp_r := .perStage [2, 3, 4, 4, 4, 4, 4, 3, 2]
    kernel_size := 3
    deep_supervision := enable_deep_supervision
    do_res := true
    do_res_up_down := true
    block_counts := [3, 4, 8, 8, 8, 8, 8, 4, 3]
    checkpoint_style := some "outside_block"
    grn := false }

/-- Row-wise running product, `np.cumprod(rows, axis=0)`. -/
def cumprodAxis0 : List (List ℚ) → List (List ℚ)
  | [] => []
  | r :: rest => List.scanl (fun acc row => List.zipWith (· * ·) acc row) r rest

/-- The method `nnUNetTrainer_MedNeXt._get_deep_supervision_scales`
(lines 49-60): when deep supervision is enabled, take the reciprocal of the
row-wise cumulative product of `[1,1,1]` followed by `num_of_mednext_ds_outputs`
copies of `[2,2,2]`, and drop the last row; otherwise return `none`. In the
trainer `num_of_mednext_ds_outputs` is set to 5 in `__init__`. -/
def nnUNetTrainer_MedNeXt._get_deep_supervision_scales
    (enable_deep_supervision : Bool) (num_of_mednext_ds_outputs : Nat) :
    Option (List (List ℚ)) :=
  if enable_deep_supervision then
    some (((cumprodAxis0 (([1, 1, 1] : List ℚ) ::
        List.replicate num_of_mednext_ds_outputs ([2, 2, 2] : List ℚ))).map
          (fun r => r.map (fun x => 1 / x))).dropLast)
  else none

/-! Basic lemmas about the dict model. -/

theorem smFind_smSet (m : List (String × Tensor)) (k k' : String) (v : Tensor) :
    smFind (smSet m k v) k' = if k = k' then some v else smFind m k' := by
  induction m with
  | nil => by_cases h : k = k' <;> simp [smSet, smFind, h]
  | cons hd tl ih =>
      obtain ⟨a, w⟩ := hd
      by_cases hak : a = k
      · subst hak
        by_cases h : a = k' <;> simp [smSet, smFind, h]
      · by_cases h : a = k'
        · subst h
          simp [smSet, smFind, hak, Ne.symm hak]
        · simp [smSet, smFind, hak, h, ih]

theorem smFind_of_mem_nodup (m : List (String × Tensor)) (k : String) (v : Tensor)
    (hmem : (k, v) ∈ m) (hnd : (m.map Prod.fst).Nodup) : smFind m k = some v := by
  induction m with
  | nil => cases hmem
  | cons hd tl ih =>
      obtain ⟨a, w⟩ := hd
      simp only [List.map_cons, List.nodup_cons] at hnd
      rcases List.mem_cons.mp hmem with h | h
      · cases h
        simp [smFind]
      · have hka : a ≠ k := by
          intro hak
          subst hak
          exact hnd.1 (List.mem_map.mpr ⟨(a, v), h, rfl⟩)
        simp [smFind, hka, ih h hnd.2]

theorem mem_of_smFind (m : List (String × Tensor)) (k : String) (v : Tensor)
    (h : smFind m k = some v) : (k, v) ∈ m := by
  induction m with
  | nil => simp [smFind] at h
  | cons hd tl ih =>
      obtain ⟨a, w⟩ := hd
      by_cases hak : a = k
      · subst hak
        simp only [smFind, if_pos, Option.some.injEq] at h
        subst h
        exact List.mem_cons_self _ _
      · simp only [smFind, if_neg hak] at h
        exact List.mem_cons_of_mem _ (ih h)

theorem smFind_eq_none (m : List (String × Tensor)) (k : String)
    (h : k ∉ m.map Prod.fst) : smFind m k = none := by
  induction m with
  | nil => rfl
  | cons hd tl ih =>
      obtain ⟨a, w⟩ := hd
      simp only [List.map_cons, List.mem_cons] at h
      push_neg at h
      simp [smFind, Ne.symm h.1, ih h.2]

theorem validateKeys_ok_iff (p m : List (String × Tensor)) :
    validateKeys p m = .ok () ↔
      ∀ k tv, (k, tv) ∈ m → notSkipped k = true →
        ∃ pv, smFind p k = some pv ∧ tv.shape = pv.shape := by
  induction m with
  | nil => simp [validateKeys]
  | cons hd tl ih =>
      obtain ⟨a, w⟩ := hd
      by_cases hs : notSkipped a = true
      · cases hfind : smFind p a with
        | none =>
            constructor
            · intro h
              simp [validateKeys, hs, hfind] at h
            · intro h
              obtain ⟨pv, hpv, _⟩ := h a w (List.mem_cons_self _ _) hs
              rw [hfind] at hpv
              cases hpv
        | some pv =>
            by_cases hsh : w.shape = pv.shape
            · constructor
              · intro h k tv hmem hns
                rcases List.mem_cons.mp hmem with he | ht
                · obtain ⟨hk, htv⟩ := Prod.mk.injEq .. ▸ he
                  subst hk
                  subst htv
                  exact ⟨pv, hfind, hsh⟩
                · have h' : validateKeys p tl = .ok () := by
                    simpa [validateKeys, hs, hfind, hsh] using h
                  exact ih.mp h' k tv ht hns
              · intro h
                have h' : validateKeys p tl = .ok () :=
                  ih.mpr (fun k tv ht hns => h k tv (List.mem_cons_of_mem _ ht) hns)
                simpa [validateKeys, hs, hfind, hsh] using h'
            · constructor
              · intro h
                simp [validateKeys, hs, hfind, hsh] at h
              · intro h
                obtain ⟨pv', hpv', hsh'⟩ := h a w (List.mem_cons_self _ _) hs
                rw [hfind] at hpv'
                cases hpv'
                exact absurd hsh' hsh
      · constructor
        · intro h k tv hmem hns
          rcases List.mem_cons.mp hmem with he | ht
          · obtain ⟨hk, htv⟩ := Prod.mk.injEq .. ▸ he
            subst hk
            subst htv
            exact absurd hns hs
          · have h' : validateKeys p tl = .ok () := by
              simpa [validateKeys, hs] using h
            exact ih.mp h' k tv ht hns
        · intro h
          have h' : validateKeys p tl = .ok () :=
            ih.mpr (fun k tv ht hns => h k tv (List.mem_cons_of_mem _ ht) hns)
          simpa [validateKeys, hs] using h'

theorem validateKeys_err_shape (p m : List (String × Tensor)) :
    validateKeys p m = .ok () ∨
      ∃ k, validateKeys p m = .error (.missingKey k) ∨
        validateKeys p m = .error (.shapeMismatch k) := by
  induction m with
  | nil => exact Or.inl rfl
  | cons hd tl ih =>
      obtain ⟨a, w⟩ := hd
      by_cases hs : notSkipped a = true
      · cases hfind : smFind p a with
        | none => exact Or.inr ⟨a, Or.inl (by simp [validateKeys, hs, hfind])⟩
        | some pv =>
            by_cases hsh : w.shape = pv.shape
            · have heq : validateKeys p ((a, w) :: tl) = validateKeys p tl := by
                simp [validateKeys, hs, hfind, hsh]
              rw [heq]
              exact ih
            · exact Or.inr ⟨a, Or.inr (by simp [validateKeys, hs, hfind, hsh])⟩
      · have heq : validateKeys p ((a, w) :: tl) = validateKeys p tl := by
          simp [validateKeys, hs]
        rw [heq]
        exact ih

theorem smFind_filter (pred : String × Tensor → Bool) (p : List (String × Tensor))
    (hp : (p.map Prod.fst).Nodup) (k : String) :
    smFind (p.filter pred) k =
      match smFind p k with
      | some v => if pred (k, v) then some v else none
      | none => none := by
  induction p with
  | nil => simp [smFind]
  | cons hd tl ih =>
      obtain ⟨a, w⟩ := hd
      simp only [List.map_cons, List.nodup_cons] at hp
      by_cases hak : a = k
      · subst hak
        have hnone : smFind (tl.filter pred) a = none := by
          apply smFind_eq_none
          intro hmem
          exact hp.1 (List.mem_map.mp hmem |>.elim
            (fun x hx => List.mem_map.mpr ⟨x, (List.mem_filter.mp hx.1).1, hx.2⟩))
        by_cases hpw : pred (a, w)
        · simp [List.filter_cons, hpw, smFind]
        · simp [List.filter_cons, hpw, smFind, hnone]
      · by_cases hpw : pred (a, w)
        · simp [List.filter_cons, hpw, smFind, hak, ih hp.2]
        · simp [List.filter_cons, hpw, smFind, hak, ih hp.2]

theorem smFind_smUpdate (ov : List (String × Tensor))
    (hov : (ov.map Prod.fst).Nodup) (m : List (String × Tensor)) (k : String) :
    smFind (smUpdate m ov) k =
      match smFind ov k with
      | some v => some v
      | none => smFind m k := by
  induction ov generalizing m with
  | nil => simp [smUpdate, smFind]
  | cons hd tl ih =>
      obtain ⟨a, w⟩ := hd
      simp only [List.map_cons, List.nodup_cons] at hov
      have hstep : smUpdate m ((a, w) :: tl) = smUpdate (smSet m a w) tl := rfl
      rw [hstep, ih hov.2]
      by_cases hak : a = k
      · subst hak
        have hnone : smFind tl a = none :=
          smFind_eq_none tl a hov.1
        simp [smFind, hnone, smFind_smSet]
      · simp [smFind, hak, smFind_smSet]

theorem keys_filter_nodup (pred : String × Tensor → Bool)
    (p : List (String × Tensor)) (hp : (p.map Prod.fst).Nodup) :
    ((p.filter pred).map Prod.fst).Nodup :=
  hp.sublist (List.Sublist.map Prod.fst (List.filter_sublist p))

theorem strict_merge_find (m p : List (String × Tensor))
    (hp : (p.map Prod.fst).Nodup)
    (k : String) (tv : Tensor) (htv : smFind m k = some tv) :
    smFind (smUpdate m (filterPretrained p m)) k =
      match smFind p k with
      | some pv => if notSkipped k then some pv else some tv
      | none => some tv := by
  have hnod : ((filterPretrained p m).map Prod.fst).Nodup :=
    keys_filter_nodup (fun kv => smMem m kv.1 && notSkipped kv.1) p hp
  rw [smFind_smUpdate (filterPretrained p m) hnod m k]
  simp only [filterPretrained]
  rw [smFind_filter _ p hp k]
  cases hfind : smFind p k with
  | none => simpa using htv
  | some pv =>
      have hmem : smMem m k = true := by simp [smMem, htv]
      by_cases hns : notSkipped k = true
      · simp [hmem, hns]
      · simp only [Bool.not_eq_true] at hns
        simp [hmem, hns, htv]

theorem unpackShape_eq (s : List Nat) (inc outc : Nat) (sp : List Nat)
    (h : unpackShape s = some (inc, outc, sp)) : s = inc :: outc :: sp := by
  match s with
  | [] => cases h
  | [a] => cases h
  | a :: b :: r =>
      simp only [unpackShape, Option.some.injEq, Prod.mk.injEq] at h
      simp [h.1, h.2.1, h.2.2]

theorem interpolate_shape (t : Tensor) (a b : Nat) (r s : List Nat)
    (mode : InterpMode) (h : t.shape = a :: b :: r) :
    (interpolate t s mode).shape = a :: b :: s := by
  simp [interpolate, h]

theorem upkernGo_cons_error (pd : List (String × Tensor)) (k0 : String)
    (tv0 : Tensor) (tl acc : List (String × Tensor)) (ds : List KeyDiag)
    (e : LoadError) (hstep : upkernStep pd k0 tv0 = .error e) :
    upkernGo pd ((k0, tv0) :: tl) acc ds = (some e, acc, ds.reverse) := by
  simp [upkernGo, hstep]

theorem upkernGo_cons_ok_none (pd : List (String × Tensor)) (k0 : String)
    (tv0 : Tensor) (tl acc : List (String × Tensor)) (ds : List KeyDiag)
    (d : KeyDiag) (hstep : upkernStep pd k0 tv0 = .ok (none, d)) :
    upkernGo pd ((k0, tv0) :: tl) acc ds = upkernGo pd tl acc (d :: ds) := by
  simp [upkernGo, hstep]

theorem upkernGo_cons_ok_some (pd : List (String × Tensor)) (k0 : String)
    (tv0 : Tensor) (tl acc : List (String × Tensor)) (ds : List KeyDiag)
    (nv : Tensor) (d : KeyDiag) (hstep : upkernStep pd k0 tv0 = .ok (some nv, d)) :
    upkernGo pd ((k0, tv0) :: tl) acc ds = upkernGo pd tl (smSet acc k0 nv) (d :: ds) := by
  simp [upkernGo, hstep]

theorem upkernGo_diags_struct (pd : List (String × Tensor)) :
    ∀ (l acc : List (String × Tensor)) (ds : List KeyDiag)
      (res : List (String × Tensor)) (dgs : List KeyDiag),
      upkernGo pd l acc ds = (none, res, dgs) → ∃ tail, dgs = ds.reverse ++ tail := by
  intro l
  induction l with
  | nil =>
      intro acc ds res dgs h
      simp only [upkernGo, Prod.mk.injEq] at h
      exact ⟨[], by simp [← h.2.2]⟩
  | cons hd tl ih =>
      obtain ⟨k0, tv0⟩ := hd
      intro acc ds res dgs h
      cases hstep : upkernStep pd k0 tv0 with
      | error e =>
          rw [upkernGo_cons_error pd k0 tv0 tl acc ds e hstep] at h
          simp at h
      | ok vd =>
          obtain ⟨ov, d⟩ := vd
          cases ov with
          | none =>
              rw [upkernGo_cons_ok_none pd k0 tv0 tl acc ds d hstep] at h
              obtain ⟨tail, ht⟩ := ih acc (d :: ds) res dgs h
              exact ⟨d :: tail, by simpa using ht⟩
          | some nv =>
              rw [upkernGo_cons_ok_some pd k0 tv0 tl acc ds nv d hstep] at h
              obtain ⟨tail, ht⟩ := ih (smSet acc k0 nv) (d :: ds) res dgs h
              exact ⟨d :: tail, by simpa using ht⟩

theorem upkernGo_diag_mem (pd : List (String × Tensor)) :
    ∀ (l acc : List (String × Tensor)) (ds : List KeyDiag)
      (res : List (String × Tensor)) (dgs : List KeyDiag),
      upkernGo pd l acc ds = (none, res, dgs) →
      ∀ (k : String) (tv : Tensor) (ov : Option Tensor) (d : KeyDiag),
        (k, tv) ∈ l → upkernStep pd k tv = .ok (ov, d) → d ∈ dgs := by
  intro l
  induction l with
  | nil =>
      intro acc ds res dgs h k tv ov d hmem
      cases hmem
  | cons hd tl ih =>
      obtain ⟨k0, tv0⟩ := hd
      intro acc ds res dgs h k tv ov d hmem hstep
      cases hstep0 : upkernStep pd k0 tv0 with
      | error e =>
          rw [upkernGo_cons_error pd k0 tv0 tl acc ds e hstep0] at h
          simp at h
      | ok vd =>
          obtain ⟨ov0, d0⟩ := vd
          rcases List.mem_cons.mp hmem with he | ht
          · obtain ⟨hk, htv⟩ := Prod.mk.injEq .. ▸ he
            subst hk
            subst htv
            rw [hstep] at hstep0
            have hpair : (ov, d) = (ov0, d0) := Except.ok.inj hstep0
            obtain ⟨hov, hd0⟩ := Prod.mk.injEq .. ▸ hpair
            subst hov
            subst hd0
            cases ov with
            | none =>
                rw [upkernGo_cons_ok_none pd k tv tl acc ds d hstep] at h
                obtain ⟨tail, htail⟩ := upkernGo_diags_struct pd tl acc (d :: ds) res dgs h
                rw [htail]
                simp
            | some nv =>
                rw [upkernGo_cons_ok_some pd k tv tl acc ds nv d hstep] at h
                obtain ⟨tail, htail⟩ := upkernGo_diags_struct pd tl (smSet acc k nv)
                  (d :: ds) res dgs h
                rw [htail]
                simp
          · cases ov0 with
            | none =>
                rw [upkernGo_cons_ok_none pd k0 tv0 tl acc ds d0 hstep0] at h
                exact ih acc (d0 :: ds) res dgs h k tv ov d ht hstep
            | some nv =>
                rw [upkernGo_cons_ok_some pd k0 tv0 tl acc ds nv d0 hstep0] at h
                exact ih (smSet acc k0 nv) (d0 :: ds) res dgs h k tv ov d ht hstep

theorem upkernGo_absent_preserve (pd : List (String × Tensor)) (k : String)
    (hk : smFind pd k = none) :
    ∀ (l acc : List (String × Tensor)) (ds : List KeyDiag),
      smFind (upkernGo pd l acc ds).2.1 k = smFind acc k := by
  intro l
  induction l with
  | nil =>
      intro acc ds
      simp [upkernGo]
  | cons hd tl ih =>
      obtain ⟨k0, tv0⟩ := hd
      intro acc ds
      cases hstep : upkernStep pd k0 tv0 with
      | error e =>
          rw [upkernGo_cons_error pd k0 tv0 tl acc ds e hstep]
      | ok vd =>
          obtain ⟨ov, d⟩ := vd
          cases ov with
          | none =>
              rw [upkernGo_cons_ok_none pd k0 tv0 tl acc ds d hstep]
              exact ih acc (d :: ds)
          | some nv =>
              have hk0 : k0 ≠ k := by
                intro he
                subst he
                rw [upkernStep, hk] at hstep
                cases hstep
              rw [upkernGo_cons_ok_some pd k0 tv0 tl acc ds nv d hstep,
                ih (smSet acc k0 nv) (d :: ds), smFind_smSet]
              simp [hk0]

theorem upkernGo_err_isSome (pd : List (String × Tensor)) :
    ∀ (l acc : List (String × Tensor)) (ds : List KeyDiag)
      (k : String) (tv : Tensor) (e : LoadError),
      (k, tv) ∈ l → upkernStep pd k tv = .error e →
      (upkernGo pd l acc ds).1.isSome := by
  intro l
  induction l with
  | nil =>
      intro acc ds k tv e hmem
      cases hmem
  | cons hd tl ih =>
      obtain ⟨k0, tv0⟩ := hd
      intro acc ds k tv e hmem hstep
      cases hstep0 : upkernStep pd k0 tv0 with
      | error e0 =>
          rw [upkernGo_cons_error pd k0 tv0 tl acc ds e0 hstep0]
          rfl
      | ok vd =>
          obtain ⟨ov0, d0⟩ := vd
          rcases List.mem_cons.mp hmem with he | ht
          · obtain ⟨hk, htv⟩ := Prod.mk.injEq .. ▸ he
            subst hk
            subst htv
            rw [hstep] at hstep0
            cases hstep0
          · cases ov0 with
            | none =>
                rw [upkernGo_cons_ok_none pd k0 tv0 tl acc ds d0 hstep0]
                exact ih acc (d0 :: ds) k tv e ht hstep
            | some nv =>
                rw [upkernGo_cons_ok_some pd k0 tv0 tl acc ds nv d0 hstep0]
                exact ih (smSet acc k0 nv) (d0 :: ds) k tv e ht hstep


theorem upkernStep_absent (pd : List (String × Tensor)) (k : String) (tv : Tensor)
    (hfind : smFind pd k = none) :
    upkernStep pd k tv = .ok (none, .warnedNotShared k true false) := by
  rw [upkernStep, hfind]

theorem upkernStep_marker (pd : List (String × Tensor)) (k : String)
    (tv pv : Tensor) (hfind : smFind pd k = some pv) (hm : isMarkerKey k = true) :
    upkernStep pd k tv = .ok (some pv, .markerCopied k) := by
  rw [upkernStep, hfind]
  simp [hm]

theorem upkernStep_copy (pd : List (String × Tensor)) (k : String)
    (tv pv : Tensor) (inc outc : Nat) (sp : List Nat)
    (hfind : smFind pd k = some pv) (hm : isMarkerKey k = false)
    (htv : tv.shape = inc :: outc :: sp) (hpv : pv.shape = inc :: outc :: sp) :
    upkernStep pd k tv = .ok (some pv, .copied k) := by
  rw [upkernStep, hfind]
  simp [hm, unpackShape, htv, hpv]

theorem upkernStep_interp3 (pd : List (String × Tensor)) (k : String)
    (tv pv : Tensor) (inc outc : Nat) (sp1 sp2 : List Nat)
    (hfind : smFind pd k = some pv) (hm : isMarkerKey k = false)
    (htv : tv.shape = inc :: outc :: sp1) (hpv : pv.shape = inc :: outc :: sp2)
    (hsp : sp1 ≠ sp2) (h3 : sp1.length = 3) :
    upkernStep pd k tv =
      .ok (some (interpolate pv sp1 .trilinear), .interpolated k .trilinear) := by
  rw [upkernStep, hfind]
  simp [hm, unpackShape, htv, hpv, hsp, h3]

theorem upkernStep_interp2 (pd : List (String × Tensor)) (k : String)
    (tv pv : Tensor) (inc outc : Nat) (sp1 sp2 : List Nat)
    (hfind : smFind pd k = some pv) (hm : isMarkerKey k = false)
    (htv : tv.shape = inc :: outc :: sp1) (hpv : pv.shape = inc :: outc :: sp2)
    (hsp : sp1 ≠ sp2) (_h3 : sp1.length ≠ 3) (h2 : sp1.length = 2) :
    upkernStep pd k tv =
      .ok (some (interpolate pv sp1 .bilinear), .interpolated k .bilinear) := by
  rw [upkernStep, hfind]
  simp [hm, unpackShape, htv, hpv, hsp, h2]

theorem upkernStep_rank_err (pd : List (String × Tensor)) (k : String)
    (tv pv : Tensor) (inc outc : Nat) (sp1 sp2 : List Nat)
    (hfind : smFind pd k = some pv) (hm : isMarkerKey k = false)
    (htv : tv.shape = inc :: outc :: sp1) (hpv : pv.shape = inc :: outc :: sp2)
    (hsp : sp1 ≠ sp2) (h3 : sp1.length ≠ 3) (h2 : sp1.length ≠ 2) :
    upkernStep pd k tv = .error (.unsupportedRank k) := by
  rw [upkernStep, hfind]
  simp [hm, unpackShape, htv, hpv, hsp, h3, h2]

theorem upkernStep_chan_err (pd : List (String × Tensor)) (k : String)
    (tv pv : Tensor) (inc1 outc1 inc2 outc2 : Nat) (sp1 sp2 : List Nat)
    (hfind : smFind pd k = some pv) (hm : isMarkerKey k = false)
    (htv : tv.shape = inc1 :: outc1 :: sp1) (hpv : pv.shape = inc2 :: outc2 :: sp2)
    (hio : inc1 ≠ inc2 ∨ outc1 ≠ outc2) :
    upkernStep pd k tv = .error (.channelMismatch k) := by
  rw [upkernStep, hfind]
  by_cases hi : inc1 = inc2
  · have ho : outc1 ≠ outc2 := by
      rcases hio with h | h
      · exact absurd hi h
      · exact h
    simp [hm, unpackShape, htv, hpv, hi, ho]
  · simp [hm, unpackShape, htv, hpv, hi]

theorem upkernStep_unpack_err (pd : List (String × Tensor)) (k : String)
    (tv pv : Tensor) (hfind : smFind pd k = some pv) (hm : isMarkerKey k = false)
    (hlen : unpackShape tv.shape = none ∨ unpackShape pv.shape = none) :
    upkernStep pd k tv = .error (.unpackError k) := by
  rw [upkernStep, hfind]
  rcases hlen with h | h
  · simp [hm, h]
  · cases hu1 : unpackShape tv.shape with
    | none => simp [hm, hu1]
    | some t1 =>
        obtain ⟨inc1, outc1, sp1⟩ := t1
        simp [hm, hu1, h]

theorem upkernStep_shape (pd : List (String × Tensor)) (k : String)
    (tv nv : Tensor) (d : KeyDiag)
    (hmk : isMarkerKey k = true → ∀ pv, smFind pd k = some pv → pv.shape = tv.shape)
    (h : upkernStep pd k tv = .ok (some nv, d)) : nv.shape = tv.shape := by
  cases hfind : smFind pd k with
  | none =>
      rw [upkernStep_absent pd k tv hfind] at h
      simp at h
  | some pv =>
      by_cases hm : isMarkerKey k = true
      · rw [upkernStep_marker pd k tv pv hfind hm] at h
        simp only [Except.ok.injEq, Prod.mk.injEq, Option.some.injEq] at h
        rw [← h.1]
        exact hmk hm pv hfind
      · have hm' : isMarkerKey k = false := by simpa using hm
        cases hu1 : unpackShape tv.shape with
        | none =>
            rw [upkernStep_unpack_err pd k tv pv hfind hm' (Or.inl hu1)] at h
            simp at h
        | some t1 =>
            obtain ⟨inc1, outc1, sp1⟩ := t1
            have htv := unpackShape_eq _ _ _ _ hu1
            cases hu2 : unpackShape pv.shape with
            | none =>
                rw [upkernStep_unpack_err pd k tv pv hfind hm' (Or.inr hu2)] at h
                simp at h
            | some t2 =>
                obtain ⟨inc2, outc2, sp2⟩ := t2
                have hpv := unpackShape_eq _ _ _ _ hu2
                by_cases hi : inc1 = inc2
                · by_cases ho : outc1 = outc2
                  · subst hi
                    subst ho
                    by_cases hsp : sp1 = sp2
                    · subst hsp
                      rw [upkernStep_copy pd k tv pv inc1 outc1 sp1 hfind hm' htv hpv] at h
                      simp only [Except.ok.injEq, Prod.mk.injEq, Option.some.injEq] at h
                      rw [← h.1, hpv, htv]
                    · by_cases h3 : sp1.length = 3
                      · rw [upkernStep_interp3 pd k tv pv inc1 outc1 sp1 sp2 hfind hm'
                          htv hpv hsp h3] at h
                        simp only [Except.ok.injEq, Prod.mk.injEq, Option.some.injEq] at h
                        rw [← h.1, interpolate_shape pv inc1 outc1 sp2 sp1 _ hpv, htv]
                      · by_cases h2 : sp1.length = 2
                        · rw [upkernStep_interp2 pd k tv pv inc1 outc1 sp1 sp2 hfind hm'
                            htv hpv hsp h3 h2] at h
                          simp only [Except.ok.injEq, Prod.mk.injEq, Option.some.injEq] at h
                          rw [← h.1, interpolate_shape pv inc1 outc1 sp2 sp1 _ hpv, htv]
                        · rw [upkernStep_rank_err pd k tv pv inc1 outc1 sp1 sp2 hfind hm'
                            htv hpv hsp h3 h2] at h
                          simp at h
                  · rw [upkernStep_chan_err pd k tv pv inc1 outc1 inc2 outc2 sp1 sp2 hfind hm'
                      htv hpv (Or.inr ho)] at h
                    simp at h
                · rw [upkernStep_chan_err pd k tv pv inc1 outc1 inc2 outc2 sp1 sp2 hfind hm'
                    htv hpv (Or.inl hi)] at h
                  simp at h

theorem upkernGo_shapes (pd m0 : List (String × Tensor)) :
    ∀ (l acc : List (String × Tensor)) (ds : List KeyDiag),
      (∀ k tv, (k, tv) ∈ l → smFind m0 k = some tv) →
      (∀ k tv pv, (k, tv) ∈ l → isMarkerKey k = true → smFind pd k = some pv →
        pv.shape = tv.shape) →
      (∀ k tv tv', smFind m0 k = some tv → smFind acc k = some tv' →
        tv'.shape = tv.shape) →
      (upkernGo pd l acc ds).1 = none →
      ∀ k tv tv', smFind m0 k = some tv →
        smFind (upkernGo pd l acc ds).2.1 k = some tv' → tv'.shape = tv.shape := by
  intro l
  induction l with
  | nil =>
      intro acc ds _ _ hacc _ k tv tv' h1 h2
      simp only [upkernGo] at h2
      exact hacc k tv tv' h1 h2
  | cons hd tl ih =>
      obtain ⟨k0, tv0⟩ := hd
      intro acc ds hmem hmk hacc hnone k tv tv' h1 h2
      cases hstep : upkernStep pd k0 tv0 with
      | error e =>
          rw [upkernGo_cons_error pd k0 tv0 tl acc ds e hstep] at hnone
          cases hnone
      | ok vd =>
          obtain ⟨ov, d⟩ := vd
          cases ov with
          | none =>
              rw [upkernGo_cons_ok_none pd k0 tv0 tl acc ds d hstep] at hnone h2
              exact ih acc (d :: ds)
                (fun k tv h => hmem k tv (List.mem_cons_of_mem _ h))
                (fun k tv pv h => hmk k tv pv (List.mem_cons_of_mem _ h))
                hacc hnone k tv tv' h1 h2
          | some nv =>
              rw [upkernGo_cons_ok_some pd k0 tv0 tl acc ds nv d hstep] at hnone h2
              have hsh : nv.shape = tv0.shape :=
                upkernStep_shape pd k0 tv0 nv d
                  (fun hm pv hpv =>
                    hmk k0 tv0 pv (List.mem_cons_self _ _) hm hpv) hstep
              apply ih (smSet acc k0 nv) (d :: ds)
                (fun k tv h => hmem k tv (List.mem_cons_of_mem _ h))
                (fun k tv pv h => hmk k tv pv (List.mem_cons_of_mem _ h))
                ?_ hnone k tv tv' h1 h2
              intro k1 w1 w1' hw1 hw1'
              rw [smFind_smSet] at hw1'
              by_cases hk01 : k0 = k1
              · subst hk01
                rw [if_pos rfl] at hw1'
                have hm0 : smFind m0 k0 = some tv0 :=
                  hmem k0 tv0 (List.mem_cons_self _ _)
                rw [hm0] at hw1
                obtain rfl : tv0 = w1 := Option.some.inj hw1
                obtain rfl : nv = w1' := Option.some.inj hw1'
                exact hsh
              · rw [if_neg hk01] at hw1'
                exact hacc k1 w1 w1' hw1 hw1'

theorem upkernGo_straight (pd : List (String × Tensor)) :
    ∀ (l acc : List (String × Tensor)) (ds : List KeyDiag),
      (∀ k tv pv, (k, tv) ∈ l → smFind pd k = some pv → isMarkerKey k = false →
        tv.shape = pv.shape ∧ 2 ≤ tv.shape.length) →
      ∃ dgs, upkernGo pd l acc ds = (none, straightCopyGo pd l acc, dgs) := by
  intro l
  induction l with
  | nil =>
      intro acc ds _
      exact ⟨ds.reverse, by simp [upkernGo, straightCopyGo]⟩
  | cons hd tl ih =>
      obtain ⟨k0, tv0⟩ := hd
      intro acc ds H
      have Htl : ∀ k tv pv, (k, tv) ∈ tl → smFind pd k = some pv →
          isMarkerKey k = false → tv.shape = pv.shape ∧ 2 ≤ tv.shape.length :=
        fun k tv pv h => H k tv pv (List.mem_cons_of_mem _ h)
      cases hfind : smFind pd k0 with
      | none =>
          rw [upkernGo_cons_ok_none pd k0 tv0 tl acc ds _
            (upkernStep_absent pd k0 tv0 hfind)]
          have hsc : straightCopyGo pd ((k0, tv0) :: tl) acc =
              straightCopyGo pd tl acc := by
            simp [straightCopyGo, hfind]
          rw [hsc]
          exact ih acc (KeyDiag.warnedNotShared k0 true false :: ds) Htl
      | some pv =>
          by_cases hm : isMarkerKey k0 = true
          · rw [upkernGo_cons_ok_some pd k0 tv0 tl acc ds pv _
              (upkernStep_marker pd k0 tv0 pv hfind hm)]
            have hsc : straightCopyGo pd ((k0, tv0) :: tl) acc =
                straightCopyGo pd tl (smSet acc k0 pv) := by
              simp [straightCopyGo, hfind]
            rw [hsc]
            exact ih (smSet acc k0 pv) (KeyDiag.markerCopied k0 :: ds) Htl
          · have hm' : isMarkerKey k0 = false := by simpa using hm
            obtain ⟨hsh, hlen⟩ := H k0 tv0 pv (List.mem_cons_self _ _) hfind hm'
            obtain ⟨a, b, r, hts⟩ : ∃ a b r, tv0.shape = a :: b :: r := by
              cases h1 : tv0.shape with
              | nil =>
                  rw [h1] at hlen
                  simp at hlen
              | cons a rest =>
                  cases h2 : rest with
                  | nil =>
                      rw [h1, h2] at hlen
                      simp at hlen
                  | cons b r => exact ⟨a, b, r, rfl⟩
            have hps : pv.shape = a :: b :: r := by rw [← hsh, hts]
            rw [upkernGo_cons_ok_some pd k0 tv0 tl acc ds pv _
              (upkernStep_copy pd k0 tv0 pv a b r hfind hm' hts hps)]
            have hsc : straightCopyGo pd ((k0, tv0) :: tl) acc =
                straightCopyGo pd tl (smSet acc k0 pv) := by
              simp [straightCopyGo, hfind]
            rw [hsc]
            exact ih (smSet acc k0 pv) (KeyDiag.copied k0 :: ds) Htl

/-- C1: for every target state mapping, source state mapping, and the code's
skip-pattern set: if some target key that matches no skip pattern is absent
from the source, or present with a different shape, then strict
reconciliation fails with the incompatible-checkpoint error kind (a
missing-key or shape-mismatch assertion) and leaves the target mapping
completely unmodified. -/
theorem C1_strict_failure_unmodified (m p : List (String × Tensor))
    (h : ∃ k tv, (k, tv) ∈ m ∧ notSkipped k = true ∧
      (smFind p k = none ∨ ∃ pv, smFind p k = some pv ∧ tv.shape ≠ pv.shape)) :
    (∃ k', (load_pretrained_weights m p).1 = some (.missingKey k') ∨
      (load_pretrained_weights m p).1 = some (.shapeMismatch k')) ∧
    (load_pretrained_weights m p).2 = m := by
  obtain ⟨k, tv, hmem, hns, hbad⟩ := h
  have hnok : validateKeys p m ≠ .ok () := by
    intro hok
    obtain ⟨pv, hpv, hsh⟩ := (validateKeys_ok_iff p m).mp hok k tv hmem hns
    rcases hbad with hb | ⟨pv', hpv', hsh'⟩
    · rw [hb] at hpv
      cases hpv
    · rw [hpv] at hpv'
      obtain rfl := Option.some.inj hpv'
      exact hsh' hsh
  rcases validateKeys_err_shape p m with hok | ⟨k', herr⟩
  · exact absurd hok hnok
  · rcases herr with herr | herr
    · exact ⟨⟨k', Or.inl (by simp [load_pretrained_weights, herr])⟩,
        by simp [load_pretrained_weights, herr]⟩
    · exact ⟨⟨k', Or.inr (by simp [load_pretrained_weights, herr])⟩,
        by simp [load_pretrained_weights, herr]⟩

/-- Witness for C1 at a concrete input: the single non-skipped target key
`a.weight` is absent from the empty source, so the strict load errors and
returns the target unchanged. -/
theorem C1_strict_failure_unmodified_witness :
    (∃ k tv, (k, tv) ∈ [("a.weight", Tensor.mk [2] [0, 0])] ∧ notSkipped k = true ∧
      (smFind [] k = none ∨ ∃ pv, smFind [] k = some pv ∧ tv.shape ≠ pv.shape)) ∧
    ((∃ k', (load_pretrained_weights [("a.weight", Tensor.mk [2] [0, 0])] []).1 =
        some (.missingKey k') ∨
      (load_pretrained_weights [("a.weight", Tensor.mk [2] [0, 0])] []).1 =
        some (.shapeMismatch k')) ∧
    (load_pretrained_weights [("a.weight", Tensor.mk [2] [0, 0])] []).2 =
      [("a.weight", Tensor.mk [2] [0, 0])]) :=
  ⟨⟨"a.weight", Tensor.mk [2] [0, 0], by decide, by decide, Or.inl (by decide)⟩,
    C1_strict_failure_unmodified [("a.weight", Tensor.mk [2] [0, 0])] []
      ⟨"a.weight", Tensor.mk [2] [0, 0], by decide, by decide, Or.inl (by decide)⟩⟩

/-- C4: for every target/source pair (with dict-unique keys) in which every
target key that matches no skip pattern is present in the source with an
equal shape, strict reconciliation succeeds; afterwards each non-skipped
key's value equals the source's value for that key, while each skipped key
and each key absent from the source keeps its original target value. -/
theorem C4_strict_success_transfers (m p : List (String × Tensor))
    (hp : (p.map Prod.fst).Nodup)
    (H : ∀ k tv, (k, tv) ∈ m → notSkipped k = true →
      ∃ pv, smFind p k = some pv ∧ tv.shape = pv.shape) :
    (load_pretrained_weights m p).1 = none ∧
    ∀ k tv, smFind m k = some tv →
      ((notSkipped k = true → smFind (load_pretrained_weights m p).2 k = smFind p k) ∧
       (notSkipped k = false → smFind (load_pretrained_weights m p).2 k = some tv) ∧
       (smFind p k = none → smFind (load_pretrained_weights m p).2 k = some tv)) := by
  have hok : validateKeys p m = .ok () := (validateKeys_ok_iff p m).mpr H
  have hload : load_pretrained_weights m p =
      (none, smUpdate m (filterPretrained p m)) := by
    simp [load_pretrained_weights, hok]
  refine ⟨by rw [hload], ?_⟩
  intro k tv htv
  have hchar := strict_merge_find m p hp k tv htv
  rw [hload]
  refine ⟨?_, ?_, ?_⟩
  · intro hns
    cases hfind : smFind p k with
    | none =>
        obtain ⟨pv, hpv, -⟩ := H k tv (mem_of_smFind m k tv htv) hns
        rw [hfind] at hpv
        cases hpv
    | some pv =>
        rw [hchar, hfind]
        simp [hns]
  · intro hns
    rw [hchar]
    cases hfind : smFind p k with
    | none => rfl
    | some pv => simp [hns]
  · intro hnone
    rw [hchar, hnone]

/-- Concrete target mapping for the C4 witness. -/
def mW4 : List (String × Tensor) :=
  [("x.weight", Tensor.mk [2] [0, 0]), ("y.seg_layers.z", Tensor.mk [1] [1]),
   ("u.seg_layers.b", Tensor.mk [1] [3])]

/-- Concrete source mapping for the C4 witness. -/
def pW4 : List (String × Tensor) :=
  [("x.weight", Tensor.mk [2] [9, 9]), ("y.seg_layers.z", Tensor.mk [5] [5, 5, 5, 5, 5])]

/-- Witness for C4 at a concrete input: `x.weight` is transferred from the
source, the skipped key `y.seg_layers.z` keeps its target value despite a
different source shape, and the skipped key `u.seg_layers.b` unique to the
target is untouched. -/
theorem C4_strict_success_transfers_witness :
    ((pW4.map Prod.fst).Nodup ∧
     (∀ k tv, (k, tv) ∈ mW4 → notSkipped k = true →
       ∃ pv, smFind pW4 k = some pv ∧ tv.shape = pv.shape)) ∧
    ((load_pretrained_weights mW4 pW4).1 = none ∧
     ∀ k tv, smFind mW4 k = some tv →
       ((notSkipped k = true →
          smFind (load_pretrained_weights mW4 pW4).2 k = smFind pW4 k) ∧
        (notSkipped k = false →
          smFind (load_pretrained_weights mW4 pW4).2 k = some tv) ∧
        (smFind pW4 k = none →
          smFind (load_pretrained_weights mW4 pW4).2 k = some tv))) := by
  have hH : ∀ k tv, (k, tv) ∈ mW4 → notSkipped k = true →
      ∃ pv, smFind pW4 k = some pv ∧ tv.shape = pv.shape := by
    intro k tv hmem hns
    simp only [mW4, List.mem_cons, List.not_mem_nil, or_false] at hmem
    rcases hmem with h | h | h
    · obtain ⟨hk, htv⟩ := Prod.mk.injEq .. ▸ h
      subst hk
      subst htv
      exact ⟨Tensor.mk [2] [9, 9], by decide, by decide⟩
    · obtain ⟨hk, htv⟩ := Prod.mk.injEq .. ▸ h
      subst hk
      exact absurd hns (by decide)
    · obtain ⟨hk, htv⟩ := Prod.mk.injEq .. ▸ h
      subst hk
      exact absurd hns (by decide)
  exact ⟨⟨by decide, hH⟩, C4_strict_success_transfers mW4 pW4 (by decide) hH⟩

/-- C6: with deep supervision enabled and five extra outputs, the schedule
has exactly five entries, entry i being [2^-i, 2^-i, 2^-i]; with deep
supervision disabled the method returns the explicit no-schedule marker
(`None`). -/
theorem C6_deep_supervision_scales :
    nnUNetTrainer_MedNeXt._get_deep_supervision_scales true 5 =
      some [[1, 1, 1], [1/2, 1/2, 1/2], [1/4, 1/4, 1/4], [1/8, 1/8, 1/8],
        [1/16, 1/16, 1/16]] ∧
    ∀ n, nnUNetTrainer_MedNeXt._get_deep_supervision_scales false n = none := by
  constructor
  · norm_num [nnUNetTrainer_MedNeXt._get_deep_supervision_scales, cumprodAxis0,
      List.scanl, List.replicate, List.zipWith, List.dropLast, List.map]
  · intro n
    rfl

/-- C7: the preset-M kernel-3 trainer builds a MedNeXt configuration with
block counts [3,4,8,8,8,8,8,4,3], per-stage expansion ratios
[2,3,4,4,4,4,4,3,2], the outside-block checkpointing tag, 32 base channels,
and threads the input/output channel counts and the deep-supervision flag
through unchanged. -/
theorem C7_preset_M_kernel3 (ic oc : Nat) (ds : Bool) :
    (nnUNetTrainer_MedNeXt_M_kernel3.build_network_architecture ic oc ds).block_counts =
        [3, 4, 8, 8, 8, 8, 8, 4, 3] ∧
    (nnUNetTrainer_MedNeXt_M_kernel3.build_network_architecture ic oc ds).exp_r =
        .perStage [2, 3, 4, 4, 4, 4, 4, 3, 2] ∧
    (nnUNetTrainer_MedNeXt_M_kernel3.build_network_architecture ic oc ds).checkpoint_style =
        some "outside_block" ∧
    (nnUNetTrainer_MedNeXt_M_kernel3.build_network_architecture ic oc ds).n_channels = 32 ∧
    (nnUNetTrainer_MedNeXt_M_kernel3.build_network_architecture ic oc ds).in_channels = ic ∧
    (nnUNetTrainer_MedNeXt_M_kernel3.build_network_architecture ic oc ds).n_classes = oc ∧
    (nnUNetTrainer_MedNeXt_M_kernel3.build_network_architecture ic oc ds).deep_supervision = ds :=
  ⟨rfl, rfl, rfl, rfl, rfl, rfl, rfl⟩

/-- Concrete target mapping for the C2 counterexample and witness. -/
def mW2 : List (String × Tensor) :=
  [("a.weight", Tensor.mk [2, 3, 1] [0, 0, 0, 0, 0, 0]),
   ("b.weight", Tensor.mk [1, 1, 1] [0])]

/-- Concrete source mapping for the C2 counterexample and witness: the
in-channel count of `a.weight` is 4 instead of 2. -/
def pW2 : List (String × Tensor) :=
  [("a.weight", Tensor.mk [4, 3, 1] [1, 1, 1, 1, 1, 1, 1, 1, 1, 1, 1, 1]),
   ("b.weight", Tensor.mk [1, 1, 1] [7])]

/-- C2 counterexample: on this input the resampling loader hits the channel
mismatch on `a.weight` and aborts the whole operation with the failed
channel assertion, emitting no warning diagnostic at all and never reaching
the remaining key `b.weight` — contradicting the claim that it continues
processing the remaining keys and only surfaces a warning. -/
theorem C2_counterexample :
    (load_pretrained_weights_upkern mW2 pW2).1 =
      some (.channelMismatch "a.weight") ∧
    (load_pretrained_weights_upkern mW2 pW2).2.2 = [] ∧
    (load_pretrained_weights_upkern mW2 pW2).2.1 = mW2 := by
  decide

/-- C2 (amended): for any kernel key whose in-channel or out-channel count
differs between source and target, the mismatch is flagged — processing that
key fails with the channel-mismatch assertion, the source tensor is never
silently copied with the wrong channel count — and the whole operation
aborts at the first such key instead of continuing with a warning. -/
theorem C2_channel_mismatch_aborts (p : List (String × Tensor)) (k : String)
    (tv pv : Tensor) (inc1 outc1 inc2 outc2 : Nat) (sp1 sp2 : List Nat)
    (hfind : smFind (normalizeSource p) k = some pv)
    (hm : isMarkerKey k = false)
    (htv : tv.shape = inc1 :: outc1 :: sp1) (hpv : pv.shape = inc2 :: outc2 :: sp2)
    (hio : inc1 ≠ inc2 ∨ outc1 ≠ outc2) :
    upkernStep (normalizeSource p) k tv = .error (.channelMismatch k) ∧
    ∀ m, (k, tv) ∈ m → (load_pretrained_weights_upkern m p).1.isSome := by
  have hstep := upkernStep_chan_err (normalizeSource p) k tv pv inc1 outc1 inc2 outc2
    sp1 sp2 hfind hm htv hpv hio
  exact ⟨hstep, fun m hmem =>
    upkernGo_err_isSome (normalizeSource p) m m [] k tv _ hmem hstep⟩

/-- Witness for the amended C2 at a concrete input: the channel-mismatched
key `a.weight` makes the step fail and the whole run abort. -/
theorem C2_channel_mismatch_aborts_witness :
    (smFind (normalizeSource pW2) "a.weight" =
      some (Tensor.mk [4, 3, 1] [1, 1, 1, 1, 1, 1, 1, 1, 1, 1, 1, 1]) ∧
     isMarkerKey "a.weight" = false ∧
     (2 : Nat) ≠ 4 ∧
     ("a.weight", Tensor.mk [2, 3, 1] [0, 0, 0, 0, 0, 0]) ∈ mW2) ∧
    (upkernStep (normalizeSource pW2) "a.weight"
        (Tensor.mk [2, 3, 1] [0, 0, 0, 0, 0, 0]) =
      .error (.channelMismatch "a.weight") ∧
     (load_pretrained_weights_upkern mW2 pW2).1.isSome) := by
  have h := C2_channel_mismatch_aborts pW2 "a.weight"
    (Tensor.mk [2, 3, 1] [0, 0, 0, 0, 0, 0])
    (Tensor.mk [4, 3, 1] [1, 1, 1, 1, 1, 1, 1, 1, 1, 1, 1, 1])
    2 3 4 3 [1] [1] (by decide) (by decide) (by decide) (by decide)
    (Or.inl (by decide))
  exact ⟨⟨by decide, by decide, by decide, by decide⟩,
    ⟨h.1, h.2 mW2 (by decide)⟩⟩

theorem strict_merge_find_some (m p : List (String × Tensor))
    (hp : (p.map Prod.fst).Nodup) (k : String) (tv pv : Tensor)
    (htv : smFind m k = some tv) (hfind : smFind p k = some pv) :
    smFind (smUpdate m (filterPretrained p m)) k =
      if notSkipped k then some pv else some tv := by
  rw [strict_merge_find m p hp k tv htv, hfind]

theorem strict_merge_find_none (m p : List (String × Tensor))
    (hp : (p.map Prod.fst).Nodup) (k : String) (tv : Tensor)
    (htv : smFind m k = some tv) (hfind : smFind p k = none) :
    smFind (smUpdate m (filterPretrained p m)) k = some tv := by
  rw [strict_merge_find m p hp k tv htv, hfind]

/-- Concrete target mapping for the C3 counterexample. -/
def mW3 : List (String × Tensor) := [("x.bias", Tensor.mk [2] [0, 0])]

/-- Concrete source mapping for the C3 counterexample: the shared bias key
has shape [3] instead of the target's [2]. -/
def pW3 : List (String × Tensor) := [("x.bias", Tensor.mk [3] [1, 1, 1])]

/-- C3 counterexample: the resampling loader copies marker keys (bias, norm,
dummy) verbatim with no shape check, so on this input the call completes
with the bias key's shape changed from [2] to [3] — the claimed shape
invariant is false for completed resampling calls. -/
theorem C3_counterexample :
    ¬ (∀ m p : List (String × Tensor),
        (load_pretrained_weights_upkern m p).1 = none →
        ∀ k tv tv', smFind m k = some tv →
          smFind (load_pretrained_weights_upkern m p).2.1 k = some tv' →
          tv'.shape = tv.shape) := by
  intro h
  have hc := h mW3 pW3 (by decide) "x.bias" (Tensor.mk [2] [0, 0])
    (Tensor.mk [3] [1, 1, 1]) (by decide) (by decide)
  exact absurd hc (by decide)

/-- C3 (amended): after a completed strict reconciliation every key of the
target mapping keeps its original shape, and after a completed resampling
reconciliation the same holds provided every bias/norm/dummy-marked target
key shared with the normalized source has the source's shape equal to the
target's (the code copies those keys verbatim without any shape check, so
without that proviso their shape becomes the source's). -/
theorem C3_shape_invariant_amended :
    (∀ m p : List (String × Tensor), (p.map Prod.fst).Nodup →
      (load_pretrained_weights m p).1 = none →
      ∀ k tv tv', smFind m k = some tv →
        smFind (load_pretrained_weights m p).2 k = some tv' →
        tv'.shape = tv.shape) ∧
    (∀ m p : List (String × Tensor), (m.map Prod.fst).Nodup →
      (∀ k tv pv, (k, tv) ∈ m → isMarkerKey k = true →
        smFind (normalizeSource p) k = some pv → pv.shape = tv.shape) →
      (load_pretrained_weights_upkern m p).1 = none →
      ∀ k tv tv', smFind m k = some tv →
        smFind (load_pretrained_weights_upkern m p).2.1 k = some tv' →
        tv'.shape = tv.shape) := by
  constructor
  · intro m p hp hnone k tv tv' htv hres
    have hok : validateKeys p m = .ok () := by
      rcases validateKeys_err_shape p m with hok | ⟨k0, herr | herr⟩
      · exact hok
      · have hbad : (load_pretrained_weights m p).1 = some (.missingKey k0) := by
          simp [load_pretrained_weights, herr]
        rw [hbad] at hnone
        cases hnone
      · have hbad : (load_pretrained_weights m p).1 = some (.shapeMismatch k0) := by
          simp [load_pretrained_weights, herr]
        rw [hbad] at hnone
        cases hnone
    have hload : (load_pretrained_weights m p).2 =
        smUpdate m (filterPretrained p m) := by
      simp [load_pretrained_weights, hok]
    rw [hload] at hres
    cases hfind : smFind p k with
    | none =>
        rw [strict_merge_find_none m p hp k tv htv hfind] at hres
        obtain rfl := Option.some.inj hres
        rfl
    | some pv =>
        rw [strict_merge_find_some m p hp k tv pv htv hfind] at hres
        by_cases hns : notSkipped k = true
        · rw [if_pos hns] at hres
          obtain rfl := Option.some.inj hres
          obtain ⟨pv', hpv', hsh⟩ := (validateKeys_ok_iff p m).mp hok k tv
            (mem_of_smFind m k tv htv) hns
          rw [hfind] at hpv'
          obtain rfl := Option.some.inj hpv'
          exact hsh.symm
        · rw [if_neg hns] at hres
          obtain rfl := Option.some.inj hres
          rfl
  · intro m p hm hmk hnone k tv tv' htv hres
    exact upkernGo_shapes (normalizeSource p) m m m []
      (fun k0 tv0 h => smFind_of_mem_nodup m k0 tv0 h hm)
      (fun k0 tv0 pv h hmar hpv => hmk k0 tv0 pv h hmar hpv)
      (fun k0 w w' hw hw' => by
        rw [hw] at hw'
        obtain rfl := Option.some.inj hw'
        rfl)
      hnone k tv tv' htv hres

/-- Concrete strict-path input for the C3 witness. -/
def mA3 : List (String × Tensor) := [("w", Tensor.mk [1, 1] [5])]

/-- Concrete strict-path source for the C3 witness. -/
def pA3 : List (String × Tensor) := [("w", Tensor.mk [1, 1] [7])]

/-- Concrete resample-path input for the C3 witness. -/
def mB3 : List (String × Tensor) := [("x.bias", Tensor.mk [2] [0, 0])]

/-- Concrete resample-path source for the C3 witness: the shared bias key
has the same shape as the target. -/
def pB3 : List (String × Tensor) := [("x.bias", Tensor.mk [2] [4, 4])]

/-- Witness for the amended C3 at concrete inputs: a completed strict load
preserves the shape of `w`, and a completed resampling load whose shared
bias key has equal shapes preserves the shape of `x.bias`. -/
theorem C3_shape_invariant_amended_witness :
    ((load_pretrained_weights mA3 pA3).1 = none ∧
     (load_pretrained_weights_upkern mB3 pB3).1 = none) ∧
    ((Tensor.mk [1, 1] [7] : Tensor).shape = (Tensor.mk [1, 1] [5] : Tensor).shape ∧
     (Tensor.mk [2] [4, 4] : Tensor).shape = (Tensor.mk [2] [0, 0] : Tensor).shape) := by
  have hmk : ∀ k tv pv, (k, tv) ∈ mB3 → isMarkerKey k = true →
      smFind (normalizeSource pB3) k = some pv → pv.shape = tv.shape := by
    intro k tv pv hmem hmar hpv
    simp only [mB3, List.mem_cons, List.not_mem_nil, or_false] at hmem
    obtain ⟨hk, htv⟩ := Prod.mk.injEq .. ▸ hmem
    subst hk
    subst htv
    rw [show smFind (normalizeSource pB3) "x.bias" = some (Tensor.mk [2] [4, 4])
      from by decide] at hpv
    obtain rfl := Option.some.inj hpv
    rfl
  refine ⟨⟨by decide, by decide⟩, ?_, ?_⟩
  · exact C3_shape_invariant_amended.1 mA3 pA3 (by decide) (by decide) "w"
      (Tensor.mk [1, 1] [5]) (Tensor.mk [1, 1] [7]) (by decide) (by decide)
  · exact C3_shape_invariant_amended.2 mB3 pB3 (by decide) hmk (by decide) "x.bias"
      (Tensor.mk [2] [0, 0]) (Tensor.mk [2] [4, 4]) (by decide) (by decide)

/-- Concrete target for C5: a [1,1,8,8,8] kernel. -/
def mW5 : List (String × Tensor) :=
  [("conv.weight", Tensor.mk [1, 1, 8, 8, 8] (List.replicate 512 9))]

/-- Concrete source for C5: the same kernel at spatial size [4,4,4]. -/
def pW5 : List (String × Tensor) :=
  [("conv.weight", Tensor.mk [1, 1, 4, 4, 4] (List.replicate 64 1))]

set_option maxRecDepth 4000 in
/-- C5: in resampling reconciliation, for every kernel key shared by both
mappings with equal channel counts but differing spatial dimensions, a
3-dimensional target spatial shape is produced by trilinear interpolation
to the target's spatial shape, a 2-dimensional one by bilinear
interpolation, and any other spatial rank fails with the unsupported-rank
error; concretely, resampling a [1,1,4,4,4] kernel onto a [1,1,8,8,8]
target completes without error and yields a [1,1,8,8,8] tensor. -/
theorem C5_resample_dispatch :
    (∀ (p : List (String × Tensor)) (k : String) (tv pv : Tensor)
      (inc outc : Nat) (sp1 sp2 : List Nat),
      smFind (normalizeSource p) k = some pv → isMarkerKey k = false →
      tv.shape = inc :: outc :: sp1 → pv.shape = inc :: outc :: sp2 → sp1 ≠ sp2 →
      ((sp1.length = 3 →
         upkernStep (normalizeSource p) k tv =
           .ok (some (interpolate pv sp1 .trilinear), .interpolated k .trilinear) ∧
         (interpolate pv sp1 .trilinear).shape = inc :: outc :: sp1) ∧
       (sp1.length ≠ 3 → sp1.length = 2 →
         upkernStep (normalizeSource p) k tv =
           .ok (some (interpolate pv sp1 .bilinear), .interpolated k .bilinear) ∧
         (interpolate pv sp1 .bilinear).shape = inc :: outc :: sp1) ∧
       (sp1.length ≠ 3 → sp1.length ≠ 2 →
         upkernStep (normalizeSource p) k tv = .error (.unsupportedRank k)))) ∧
    load_pretrained_weights_upkern mW5 pW5 =
      (none, [("conv.weight", Tensor.mk [1, 1, 8, 8, 8] (List.replicate 512 0))],
       [.interpolated "conv.weight" .trilinear]) := by
  constructor
  · intro p k tv pv inc outc sp1 sp2 hfind hm htv hpv hsp
    refine ⟨?_, ?_, ?_⟩
    · intro h3
      exact ⟨upkernStep_interp3 _ k tv pv inc outc sp1 sp2 hfind hm htv hpv hsp h3,
        interpolate_shape pv inc outc sp2 sp1 _ hpv⟩
    · intro h3 h2
      exact ⟨upkernStep_interp2 _ k tv pv inc outc sp1 sp2 hfind hm htv hpv hsp h3 h2,
        interpolate_shape pv inc outc sp2 sp1 _ hpv⟩
    · intro h3 h2
      exact upkernStep_rank_err _ k tv pv inc outc sp1 sp2 hfind hm htv hpv hsp h3 h2
  · decide

set_option maxRecDepth 4000 in
/-- Witness for C5 at a concrete input: the shared non-marker kernel key
`conv.weight` with equal channels and spatial shapes [8,8,8] vs [4,4,4]
takes the trilinear branch and produces a [1,1,8,8,8] tensor. -/
theorem C5_resample_dispatch_witness :
    (smFind (normalizeSource pW5) "conv.weight" =
       some (Tensor.mk [1, 1, 4, 4, 4] (List.replicate 64 1)) ∧
     isMarkerKey "conv.weight" = false ∧
     ([8, 8, 8] : List Nat) ≠ [4, 4, 4] ∧ ([8, 8, 8] : List Nat).length = 3) ∧
    (upkernStep (normalizeSource pW5) "conv.weight"
        (Tensor.mk [1, 1, 8, 8, 8] (List.replicate 512 9)) =
      .ok (some (interpolate (Tensor.mk [1, 1, 4, 4, 4] (List.replicate 64 1))
          [8, 8, 8] .trilinear), .interpolated "conv.weight" .trilinear) ∧
     (interpolate (Tensor.mk [1, 1, 4, 4, 4] (List.replicate 64 1)) [8, 8, 8]
        .trilinear).shape = [1, 1, 8, 8, 8]) := by
  have h := (C5_resample_dispatch.1 pW5 "conv.weight"
    (Tensor.mk [1, 1, 8, 8, 8] (List.replicate 512 9))
    (Tensor.mk [1, 1, 4, 4, 4] (List.replicate 64 1)) 1 1 [8, 8, 8] [4, 4, 4]
    (by decide) (by decide) (by decide) (by decide) (by decide)).1 (by decide)
  exact ⟨⟨by decide, by decide, by decide, by decide⟩, h⟩

/-- C8: in resampling reconciliation, every target key absent from the
normalized source mapping (source keys stripped of the `module.` prefix) is
left unchanged, its processing succeeds (no failure from that key), and on a
completed run the emitted diagnostics contain the warning naming the key and
recording that it was found in the current model but not in the pretrained
model. -/
theorem C8_absent_key_warned (p m : List (String × Tensor)) (k : String)
    (tv : Tensor) (hfind : smFind (normalizeSource p) k = none)
    (hmem : (k, tv) ∈ m) (hm : (m.map Prod.fst).Nodup) :
    upkernStep (normalizeSource p) k tv = .ok (none, .warnedNotShared k true false) ∧
    smFind (load_pretrained_weights_upkern m p).2.1 k = some tv ∧
    ((load_pretrained_weights_upkern m p).1 = none →
      KeyDiag.warnedNotShared k true false ∈
        (load_pretrained_weights_upkern m p).2.2) := by
  have hstep := upkernStep_absent (normalizeSource p) k tv hfind
  refine ⟨hstep, ?_, ?_⟩
  · have hpres := upkernGo_absent_preserve (normalizeSource p) k hfind m m []
    exact hpres.trans (smFind_of_mem_nodup m k tv hmem hm)
  · intro hnone
    have heq : upkernGo (normalizeSource p) m m [] =
        (none, (load_pretrained_weights_upkern m p).2.1,
         (load_pretrained_weights_upkern m p).2.2) := by
      rw [← hnone]
      rfl
    exact upkernGo_diag_mem (normalizeSource p) m m []
      (load_pretrained_weights_upkern m p).2.1
      (load_pretrained_weights_upkern m p).2.2 heq k tv none _ hmem hstep

/-- Concrete target mapping for the C8 witness. -/
def mW8 : List (String × Tensor) := [("q.weight", Tensor.mk [1, 1] [5])]

/-- Witness for C8 at a concrete input: `q.weight` is absent from the empty
source, is left unchanged, and the warning diagnostic is emitted. -/
theorem C8_absent_key_warned_witness :
    (smFind (normalizeSource ([] : List (String × Tensor))) "q.weight" = none ∧
     ("q.weight", Tensor.mk [1, 1] [5]) ∈ mW8 ∧ (mW8.map Prod.fst).Nodup) ∧
    (upkernStep (normalizeSource ([] : List (String × Tensor))) "q.weight"
        (Tensor.mk [1, 1] [5]) =
      .ok (none, .warnedNotShared "q.weight" true false) ∧
     smFind (load_pretrained_weights_upkern mW8 []).2.1 "q.weight" =
       some (Tensor.mk [1, 1] [5]) ∧
     KeyDiag.warnedNotShared "q.weight" true false ∈
       (load_pretrained_weights_upkern mW8 []).2.2) := by
  have h := C8_absent_key_warned [] mW8 "q.weight" (Tensor.mk [1, 1] [5])
    (by decide) (by decide) (by decide)
  exact ⟨⟨by decide, by decide, by decide⟩, h.1, h.2.1, h.2.2 (by decide)⟩

/-- C9: when every shared non-marker kernel key has the same shape in source
and target (and at least two dimensions, as a kernel has), resampling
reconciliation completes and its output mapping equals the straight verbatim
copy of the normalized source values onto the shared keys. -/
theorem C9_idempotent_on_matching_shapes (m p : List (String × Tensor))
    (H : ∀ k tv pv, (k, tv) ∈ m → smFind (normalizeSource p) k = some pv →
      isMarkerKey k = false → tv.shape = pv.shape ∧ 2 ≤ tv.shape.length) :
    ∃ dgs, load_pretrained_weights_upkern m p =
      (none, straightCopy m (normalizeSource p), dgs) :=
  upkernGo_straight (normalizeSource p) m m [] H

/-- Concrete target mapping for the C9 witness. -/
def mW9 : List (String × Tensor) :=
  [("c.weight", Tensor.mk [1, 2, 3] [0, 0, 0, 0, 0, 0]),
   ("g.norm", Tensor.mk [4] [0, 0, 0, 0])]

/-- Concrete source mapping for the C9 witness: the kernel key carries a DDP
prefix and matches the target shape; the norm key is a marker key. -/
def pW9 : List (String × Tensor) :=
  [("module.c.weight", Tensor.mk [1, 2, 3] [9, 9, 9, 9, 9, 9]),
   ("g.norm", Tensor.mk [7] [1])]

/-- Witness for C9 at a concrete input: the shared kernel key has matching
shapes, so the run completes and equals the straight copy. -/
theorem C9_idempotent_on_matching_shapes_witness :
    (∀ k tv pv, (k, tv) ∈ mW9 → smFind (normalizeSource pW9) k = some pv →
      isMarkerKey k = false → tv.shape = pv.shape ∧ 2 ≤ tv.shape.length) ∧
    ∃ dgs, load_pretrained_weights_upkern mW9 pW9 =
      (none, straightCopy mW9 (normalizeSource pW9), dgs) := by
  have hH : ∀ k tv pv, (k, tv) ∈ mW9 → smFind (normalizeSource pW9) k = some pv →
      isMarkerKey k = false → tv.shape = pv.shape ∧ 2 ≤ tv.shape.length := by
    intro k tv pv hmem hfind hm
    simp only [mW9, List.mem_cons, List.not_mem_nil, or_false] at hmem
    rcases hmem with h | h
    · obtain ⟨hk, htv⟩ := Prod.mk.injEq .. ▸ h
      subst hk
      subst htv
      rw [show smFind (normalizeSource pW9) "c.weight" =
        some (Tensor.mk [1, 2, 3] [9, 9, 9, 9, 9, 9]) from by decide] at hfind
      obtain rfl := Option.some.inj hfind
      exact ⟨rfl, by decide⟩
    · obtain ⟨hk, htv⟩ := Prod.mk.injEq .. ▸ h
      subst hk
      exact absurd hm (by decide)
  exact ⟨hH, C9_idempotent_on_matching_shapes mW9 pW9 hH⟩

/-- C10 (implicit): the set of marker substrings that trigger a verbatim
copy with no channel or shape check is exactly bias, norm, dummy: any shared
target key containing one of these three substrings is copied verbatim
whatever the two shapes are, and a key containing none of them is never
given the marker treatment. -/
theorem C10_marker_set_exact (p : List (String × Tensor)) (k : String)
    (tv pv : Tensor) (hfind : smFind (normalizeSource p) k = some pv) :
    ((strContains k "bias" = true ∨ strContains k "norm" = true ∨
        strContains k "dummy" = true) →
      upkernStep (normalizeSource p) k tv = .ok (some pv, .markerCopied k)) ∧
    (strContains k "bias" = false → strContains k "norm" = false →
      strContains k "dummy" = false →
      ∀ ov, upkernStep (normalizeSource p) k tv ≠ .ok (ov, .markerCopied k)) := by
  constructor
  · intro h
    apply upkernStep_marker _ _ _ _ hfind
    rcases h with h | h | h <;> simp [isMarkerKey, h]
  · intro h1 h2 h3 ov
    have hm : isMarkerKey k = false := by simp [isMarkerKey, h1, h2, h3]
    cases hu1 : unpackShape tv.shape with
    | none =>
        rw [upkernStep_unpack_err _ k tv pv hfind hm (Or.inl hu1)]
        simp
    | some t1 =>
        obtain ⟨inc1, outc1, sp1⟩ := t1
        have htv := unpackShape_eq _ _ _ _ hu1
        cases hu2 : unpackShape pv.shape with
        | none =>
            rw [upkernStep_unpack_err _ k tv pv hfind hm (Or.inr hu2)]
            simp
        | some t2 =>
            obtain ⟨inc2, outc2, sp2⟩ := t2
            have hpv := unpackShape_eq _ _ _ _ hu2
            by_cases hi : inc1 = inc2
            · by_cases ho : outc1 = outc2
              · subst hi
                subst ho
                by_cases hsp : sp1 = sp2
                · subst hsp
                  rw [upkernStep_copy _ k tv pv inc1 outc1 sp1 hfind hm htv hpv]
                  simp
                · by_cases h3l : sp1.length = 3
                  · rw [upkernStep_interp3 _ k tv pv inc1 outc1 sp1 sp2 hfind hm
                      htv hpv hsp h3l]
                    simp
                  · by_cases h2l : sp1.length = 2
                    · rw [upkernStep_interp2 _ k tv pv inc1 outc1 sp1 sp2 hfind hm
                        htv hpv hsp h3l h2l]
                      simp
                    · rw [upkernStep_rank_err _ k tv pv inc1 outc1 sp1 sp2 hfind hm
                        htv hpv hsp h3l h2l]
                      simp
              · rw [upkernStep_chan_err _ k tv pv inc1 outc1 inc2 outc2 sp1 sp2
                  hfind hm htv hpv (Or.inr ho)]
                simp
            · rw [upkernStep_chan_err _ k tv pv inc1 outc1 inc2 outc2 sp1 sp2
                hfind hm htv hpv (Or.inl hi)]
              simp

/-- Concrete source mapping for the C10 witness. -/
def pW10 : List (String × Tensor) :=
  [("lay.dummy.w", Tensor.mk [5] [0, 0, 0, 0, 0])]

/-- Witness for C10 at a concrete input: the key `lay.dummy.w` contains the
substring `dummy`, so its source tensor of shape [5] is copied verbatim onto
a target entry of unrelated shape [2,2]. -/
theorem C10_marker_set_exact_witness :
    (smFind (normalizeSource pW10) "lay.dummy.w" =
       some (Tensor.mk [5] [0, 0, 0, 0, 0]) ∧
     strContains "lay.dummy.w" "dummy" = true) ∧
    upkernStep (normalizeSource pW10) "lay.dummy.w" (Tensor.mk [2, 2] [0, 0, 0, 0]) =
      .ok (some (Tensor.mk [5] [0, 0, 0, 0, 0]), .markerCopied "lay.dummy.w") := by
  have h := (C10_marker_set_exact pW10 "lay.dummy.w" (Tensor.mk [2, 2] [0, 0, 0, 0])
    (Tensor.mk [5] [0, 0, 0, 0, 0]) (by decide)).1 (Or.inr (Or.inr (by decide)))
  exact ⟨⟨by decide, by decide⟩, h⟩
